import Mathlib

/-!
Verification of the real-time chat core of `Task_2_chat_app/app.py`.

The module-level state `active_users = {}  # {room_id: {session_id: username}}`
is a Python dict of dicts.  Python dicts preserve insertion order, updating an
existing key keeps its position, and `del` removes the entry.  We embed a dict
as an insertion-ordered association list (`List (key × value)`); reachable
states keep at most one entry per key.

The SocketIO handlers (`handle_join`, `handle_leave`, `handle_disconnect`,
`handle_message`, `handle_image`) are embedded as pure functions from the
current state and event data to the new state together with the ordered list
of `emit` calls they perform.  The two external collaborators — the
persistence gateway (`db.session.add`/`commit`) and the media normalizer
(base64 decode + PIL re-encode) — are represented by their outcome, passed in
as an argument: `PersistResult` (a successful commit assigns the message id)
and `DecodeResult` (the processed data URI, or failure).  In the Python code
a failing commit raises, which aborts `handle_message` before any `emit`, and
lands in the `except` clause of `handle_image`.
-/

namespace ChatApp

abbrev Sid := Nat
abbrev RoomId := String
abbrev Username := String

/-- First value stored under key `a`, like Python `d[a]` / `a in d`. -/
def dictGet {α β : Type} [DecidableEq α] : List (α × β) → α → Option β
  | [], _ => none
  | (k, v) :: rest, a => if k = a then some v else dictGet rest a

/-- Python `d[k] = v`: replace the value at the existing entry for `k`
keeping its position, otherwise append `(k, v)` at the end. -/
def dictSet {α β : Type} [DecidableEq α] : List (α × β) → α → β → List (α × β)
  | [], k, v => [(k, v)]
  | (k', v') :: rest, k, v =>
      if k' = k then (k, v) :: rest else (k', v') :: dictSet rest k v

/-- Python `del d[k]`: drop the entry for `k` (the first one; reachable
states have at most one). -/
def dictDel {α β : Type} [DecidableEq α] : List (α × β) → α → List (α × β)
  | [], _ => []
  | (k', v') :: rest, k => if k' = k then rest else (k', v') :: dictDel rest k

def keys {α β : Type} (l : List (α × β)) : List α := l.map Prod.fst

/-- Python `list(d.values())`. -/
def values {α β : Type} (l : List (α × β)) : List β := l.map Prod.snd

/-- Inner dict of one room: `{session_id: username}`. -/
abbrev Inner := List (Sid × Username)

/-- `active_users`: `{room_id: {session_id: username}}`. -/
abbrev ActiveUsers := List (RoomId × Inner)

/-- One `emit(...)` call performed by a handler.  `errorToSender` is an
`emit` without a `room=` argument: it goes to the originating connection
only. -/
inductive Event : Type where
  | notification (room : RoomId) (message : String) (kind : String)
  | userListUpdate (room : RoomId) (users : List Username) (count : Nat)
  | newMessage (room : RoomId) (msgId : Nat) (content : String)
      (contentType : String) (username : Username) (userId : Nat)
  | errorToSender (message : String)
deriving DecidableEq

/-- Events emitted with a `room=` argument (fan-out to the room), as opposed
to the private `error` emit. -/
def Event.isRoomBroadcast : Event → Bool
  | .notification _ _ _ => true
  | .userListUpdate _ _ _ => true
  | .newMessage _ _ _ _ _ _ => true
  | .errorToSender _ => false

/-- The room an event is broadcast to, if any. -/
def Event.roomOf : Event → Option RoomId
  | .notification r _ _ => some r
  | .userListUpdate r _ _ => some r
  | .newMessage r _ _ _ _ _ => some r
  | .errorToSender _ => none

/-- The events of a handler run that are broadcast to room `r`. -/
def eventsFor (r : RoomId) (evs : List Event) : List Event :=
  evs.filter (fun e => e.roomOf = some r)

/-- Outcome of `db.session.add(message); db.session.commit()`: a successful
commit assigns the message id; a failing commit raises (PersistenceError)
and persists nothing. -/
inductive PersistResult : Type where
  | ok (msgId : Nat)
  | fail
deriving DecidableEq

/-- Outcome of the media normalizer (`split`/`b64decode`/`Image.open`/
re-encode): the processed PNG data URI, or a decode failure. -/
inductive DecodeResult : Type where
  | ok (processedDataUri : String)
  | fail
deriving DecidableEq

/-- `handle_join` (app.py:139-163): registers the connection in the room's
inner dict, then emits a join notification followed by the updated user
list.  `username` is `session['username']`, `sid` is `request.sid`. -/
def handle_join (st : ActiveUsers) (sid : Sid) (username : Username)
    (room_id : RoomId) : ActiveUsers × List Event :=
  let inner := (dictGet st room_id).getD []
  let inner' := dictSet inner sid username
  let st' := dictSet st room_id inner'
  let users_in_room := values inner'
  (st',
   [Event.notification room_id (username ++ " has joined the room") "join",
    Event.userListUpdate room_id users_in_room users_in_room.length])

/-- The registry update of `handle_leave` (app.py:171-173):
`if room_id in active_users and request.sid in active_users[room_id]:
del active_users[room_id][request.sid]`. -/
def leaveState (st : ActiveUsers) (sid : Sid) (room_id : RoomId) : ActiveUsers :=
  match dictGet st room_id with
  | some inner =>
      if (dictGet inner sid).isSome then dictSet st room_id (dictDel inner sid)
      else st
  | none => st

/-- `handle_leave` (app.py:165-188): deletes the connection's entry if the
room and the entry exist, then unconditionally emits a leave notification
and the updated user list (taken from `active_users.get(room_id, {})`). -/
def handle_leave (st : ActiveUsers) (sid : Sid) (username : Username)
    (room_id : RoomId) : ActiveUsers × List Event :=
  let st' := leaveState st sid room_id
  let users_in_room := values ((dictGet st' room_id).getD [])
  (st',
   [Event.notification room_id (username ++ " has left the room") "leave",
    Event.userListUpdate room_id users_in_room users_in_room.length])

/-- `handle_disconnect` (app.py:114-137): iterates the rooms in dict order;
in every room holding an entry for `sid` it deletes the entry and emits a
"has disconnected" notification (with the stored username) followed by the
updated user list; rooms without an entry are untouched and silent. -/
def handle_disconnect (st : ActiveUsers) (sid : Sid) :
    ActiveUsers × List Event :=
  match st with
  | [] => ([], [])
  | (r, inner) :: rest =>
      match dictGet inner sid with
      | some username =>
          ((r, dictDel inner sid) :: (handle_disconnect rest sid).1,
           Event.notification r (username ++ " has disconnected") "leave" ::
           Event.userListUpdate r (values (dictDel inner sid))
             (values (dictDel inner sid)).length ::
           (handle_disconnect rest sid).2)
      | none =>
          ((r, inner) :: (handle_disconnect rest sid).1,
           (handle_disconnect rest sid).2)

/-- `handle_message` (app.py:190-225): persists the message, then emits
`new_message` and a notification to the room.  Returns the number of
messages persisted together with the emitted events.  The handler never
consults `active_users`: it takes no registry state.  A failing commit
raises before any `emit`, so it yields no events and persists nothing. -/
def handle_message (username : Username) (user_id : Nat) (room_id : RoomId)
    (content : String) (content_type : String) (persist : PersistResult) :
    Nat × List Event :=
  match persist with
  | .fail => (0, [])
  | .ok msgId =>
      let notif :=
        if content_type = "text" then
          username ++ ": " ++ content.take 30 ++ "..."
        else username ++ " sent an image"
      (1,
       [Event.newMessage room_id msgId content content_type username user_id,
        Event.notification room_id notif "message"])

/-- `handle_image` (app.py:227-278): decode/resize, persist, then broadcast
`new_message` and a notification; any exception inside the `try` block —
a decode failure or a failing commit — lands in the `except` clause, which
emits a private error to the sender only. -/
def handle_image (username : Username) (user_id : Nat) (room_id : RoomId)
    (decode : DecodeResult) (persist : PersistResult) : Nat × List Event :=
  match decode with
  | .fail => (0, [Event.errorToSender "Failed to process image"])
  | .ok processed =>
      match persist with
      | .fail => (0, [Event.errorToSender "Failed to process image"])
      | .ok msgId =>
          (1,
           [Event.newMessage room_id msgId processed "image" username user_id,
            Event.notification room_id (username ++ " sent an image")
              "message"])

/-- Upstream room existence: whether the persistence gateway's `Room` table
contains the room.  `handle_join` never consults it. -/
def roomExistsUpstream (rooms : List RoomId) (r : RoomId) : Bool :=
  rooms.contains r

/-- The room's current ordered list of display names. -/
def roomUsers (st : ActiveUsers) (room : RoomId) : List Username :=
  values ((dictGet st room).getD [])

/-- A join or leave event on a fixed room; the name is the session username
of the acting connection. -/
inductive RoomOp : Type where
  | join (sid : Sid) (name : Username)
  | leave (sid : Sid) (name : Username)
deriving DecidableEq

def RoomOp.sidOf : RoomOp → Sid
  | .join s _ => s
  | .leave s _ => s

def RoomOp.isJoin : RoomOp → Bool
  | .join _ _ => true
  | .leave _ _ => false

/-- Run one join/leave handler on the state, also returning its emits. -/
def opRun (room : RoomId) (st : ActiveUsers) : RoomOp → ActiveUsers × List Event
  | .join s n => handle_join st s n room
  | .leave s n => handle_leave st s n room

def roomStep (room : RoomId) (st : ActiveUsers) (op : RoomOp) : ActiveUsers :=
  (opRun room st op).1

/-- Run a sequence of join/leave events on the same room. -/
def runOps (room : RoomId) (st : ActiveUsers) (ops : List RoomOp) : ActiveUsers :=
  ops.foldl (roomStep room) st

/-- The effect of one op on the room's inner dict alone. -/
def innerStep (inner : Inner) : RoomOp → Inner
  | .join s n => dictSet inner s n
  | .leave s _ => dictDel inner s

/-- The room's inner dict after a sequence of ops starting from an empty
registry. -/
def innerRun (ops : List RoomOp) : Inner :=
  ops.foldl innerStep []

/-- Spec-side predicate: the connection has joined at some point of the
sequence and not subsequently left, i.e. the last event of the sequence
concerning it is a join. -/
def currentlyJoined (ops : List RoomOp) (s : Sid) : Bool :=
  match (ops.filter (fun op => op.sidOf == s)).getLast? with
  | some op => op.isJoin
  | none => false

/-- Spec-side count: distinct connections that have joined and not
subsequently left. -/
def stillJoinedCount (ops : List RoomOp) : Nat :=
  ((ops.map RoomOp.sidOf).dedup.filter (fun s => currentlyJoined ops s)).length

/-- The count carried by the first `user_list_update` emit of an event
list. -/
def broadcastCount : List Event → Option Nat
  | [] => none
  | Event.userListUpdate _ _ c :: _ => some c
  | _ :: rest => broadcastCount rest

/-- Demo registry used by witnesses: connection 0 is present in rooms "A"
and "B", absent from "C". -/
def stDemo : ActiveUsers :=
  [("A", [(0, "u"), (1, "v")]), ("B", [(0, "u")]), ("C", [(2, "w")])]

/-- Demo registry: room "1" holds connection 0 under the name "Alice". -/
def stRejoin : ActiveUsers := [("1", [(0, "Alice")])]

section DictLemmas

@[simp]
theorem keys_cons {α β : Type} (p : α × β) (l : List (α × β)) :
    keys (p :: l) = p.1 :: keys l := rfl

@[simp]
theorem keys_nil {α β : Type} : keys ([] : List (α × β)) = [] := rfl

theorem length_keys {α β : Type} (l : List (α × β)) :
    (keys l).length = l.length :=
  List.length_map l Prod.fst

theorem length_values {α β : Type} (l : List (α × β)) :
    (values l).length = l.length :=
  List.length_map l Prod.snd

variable {α β : Type} [DecidableEq α]

@[simp]
theorem dictGet_dictSet_self (l : List (α × β)) (k : α) (v : β) :
    dictGet (dictSet l k v) k = some v := by
  induction l with
  | nil => simp [dictSet, dictGet]
  | cons p rest ih =>
      obtain ⟨k', v'⟩ := p
      by_cases h : k' = k
      · simp [dictSet, dictGet, h]
      · simp [dictSet, dictGet, h, ih]

theorem dictGet_dictSet_ne (l : List (α × β)) (k a : α) (v : β) (h : a ≠ k) :
    dictGet (dictSet l k v) a = dictGet l a := by
  induction l with
  | nil => simp [dictSet, dictGet, Ne.symm h]
  | cons p rest ih =>
      obtain ⟨k', v'⟩ := p
      by_cases hk : k' = k
      · subst hk
        simp [dictSet, dictGet, Ne.symm h]
      · simp only [dictSet, if_neg hk, dictGet]
        by_cases ha : k' = a
        · simp [ha]
        · simp [ha, ih]

theorem isSome_dictGet (l : List (α × β)) (a : α) :
    (dictGet l a).isSome = true ↔ a ∈ keys l := by
  induction l with
  | nil => simp [dictGet]
  | cons p rest ih =>
      obtain ⟨k', v'⟩ := p
      by_cases h : k' = a
      · simp [dictGet, h]
      · simp [dictGet, h, ih, Ne.symm h]

theorem dictGet_eq_none (l : List (α × β)) (a : α) :
    dictGet l a = none ↔ a ∉ keys l := by
  rw [← isSome_dictGet]
  cases dictGet l a <;> simp

theorem mem_keys_dictSet (l : List (α × β)) (k b : α) (v : β) :
    b ∈ keys (dictSet l k v) ↔ b = k ∨ b ∈ keys l := by
  induction l with
  | nil => simp [dictSet]
  | cons p rest ih =>
      obtain ⟨k', v'⟩ := p
      by_cases h : k' = k
      · subst h
        simp [dictSet]
      · simp only [dictSet, if_neg h, keys_cons]
        rw [List.mem_cons, List.mem_cons, ih]
        tauto

theorem keys_dictSet_of_mem (l : List (α × β)) (k : α) (v : β)
    (h : k ∈ keys l) : keys (dictSet l k v) = keys l := by
  induction l with
  | nil => simp at h
  | cons p rest ih =>
      obtain ⟨k', v'⟩ := p
      by_cases hk : k' = k
      · subst hk
        simp [dictSet]
      · simp only [keys_cons] at h
        rcases List.mem_cons.mp h with h1 | h1
        · exact absurd h1.symm hk
        · simp [dictSet, if_neg hk, ih h1]

theorem nodup_keys_dictSet (l : List (α × β)) (k : α) (v : β)
    (h : (keys l).Nodup) : (keys (dictSet l k v)).Nodup := by
  induction l with
  | nil => simp [dictSet]
  | cons p rest ih =>
      obtain ⟨k', v'⟩ := p
      simp only [keys_cons, List.nodup_cons] at h
      by_cases hk : k' = k
      · subst hk
        simpa [dictSet] using h
      · simp only [dictSet, if_neg hk, keys_cons, List.nodup_cons]
        refine ⟨?_, ih h.2⟩
        rw [mem_keys_dictSet]
        rintro (rfl | hm)
        · exact hk rfl
        · exact h.1 hm

theorem dictDel_sublist (l : List (α × β)) (k : α) :
    (dictDel l k).Sublist l := by
  induction l with
  | nil => simp [dictDel]
  | cons p rest ih =>
      obtain ⟨k', v'⟩ := p
      by_cases h : k' = k
      · simp only [dictDel, if_pos h]
        exact List.sublist_cons_self _ _
      · simp only [dictDel, if_neg h]
        exact ih.cons₂ _

theorem keys_dictDel_sublist (l : List (α × β)) (k : α) :
    (keys (dictDel l k)).Sublist (keys l) :=
  (dictDel_sublist l k).map Prod.fst

theorem nodup_keys_dictDel (l : List (α × β)) (k : α)
    (h : (keys l).Nodup) : (keys (dictDel l k)).Nodup :=
  h.sublist (keys_dictDel_sublist l k)

theorem dictDel_of_get_none (l : List (α × β)) (k : α)
    (h : dictGet l k = none) : dictDel l k = l := by
  induction l with
  | nil => rfl
  | cons p rest ih =>
      obtain ⟨k', v'⟩ := p
      by_cases hk : k' = k
      · simp [dictGet, hk] at h
      · simp only [dictGet, if_neg hk] at h
        simp [dictDel, hk, ih h]

theorem dictGet_dictDel_self (l : List (α × β)) (k : α)
    (h : (keys l).Nodup) : dictGet (dictDel l k) k = none := by
  induction l with
  | nil => rfl
  | cons p rest ih =>
      obtain ⟨k', v'⟩ := p
      simp only [keys_cons, List.nodup_cons] at h
      by_cases hk : k' = k
      · subst hk
        rw [dictDel, if_pos rfl, dictGet_eq_none]
        exact h.1
      · simp [dictDel, dictGet, hk, ih h.2]

theorem dictGet_dictDel_ne (l : List (α × β)) (k a : α) (h : a ≠ k) :
    dictGet (dictDel l k) a = dictGet l a := by
  induction l with
  | nil => rfl
  | cons p rest ih =>
      obtain ⟨k', v'⟩ := p
      by_cases hk : k' = k
      · subst hk
        simp [dictDel, dictGet, Ne.symm h]
      · simp only [dictDel, if_neg hk, dictGet]
        by_cases ha : k' = a
        · simp [ha]
        · simp [ha, ih]

theorem mem_keys_dictDel (l : List (α × β)) (k a : α)
    (h : (keys l).Nodup) : a ∈ keys (dictDel l k) ↔ a ∈ keys l ∧ a ≠ k := by
  by_cases hak : a = k
  · subst hak
    simp only [ne_eq, not_true_eq_false, and_false, iff_false]
    intro hm
    rw [← isSome_dictGet] at hm
    rw [dictGet_dictDel_self l a h] at hm
    simp at hm
  · rw [← isSome_dictGet, dictGet_dictDel_ne l k a hak, isSome_dictGet]
    simp [hak]

theorem mem_values_of_dictGet (l : List (α × β)) (k : α) (v : β)
    (h : dictGet l k = some v) : v ∈ values l := by
  induction l with
  | nil => simp [dictGet] at h
  | cons p rest ih =>
      obtain ⟨k', v'⟩ := p
      by_cases hk : k' = k
      · simp only [dictGet, if_pos hk, Option.some.injEq] at h
        simp [values, h]
      · simp only [dictGet, if_neg hk] at h
        have hv := ih h
        simp only [values, List.map_cons, List.mem_cons]
        exact Or.inr hv

end DictLemmas

/-- C5: starting from an empty registry, `join(1, A, "Alice")` broadcasts
the list `["Alice"]` with count 1, `join(1, B, "Bob")` broadcasts
`["Alice", "Bob"]` with count 2, and `leave(1, A)` broadcasts `["Bob"]`
with count 1 — insertion order throughout. -/
theorem join_leave_round_trip :
    (handle_join [] 0 "Alice" "1").2 =
      [Event.notification "1" "Alice has joined the room" "join",
       Event.userListUpdate "1" ["Alice"] 1] ∧
    (handle_join (handle_join [] 0 "Alice" "1").1 1 "Bob" "1").2 =
      [Event.notification "1" "Bob has joined the room" "join",
       Event.userListUpdate "1" ["Alice", "Bob"] 2] ∧
    (handle_leave (handle_join (handle_join [] 0 "Alice" "1").1 1 "Bob" "1").1
        0 "Alice" "1").2 =
      [Event.notification "1" "Alice has left the room" "leave",
       Event.userListUpdate "1" ["Bob"] 1] := by
  decide

/-- C10: for every text message the notification broadcast to the room is
the sender's username, a colon and space, the first 30 characters of the
content, and a trailing "..." — appended whatever the content's length. -/
theorem text_notification_format (u : Username) (uid msgId : Nat)
    (room : RoomId) (content : String) :
    (handle_message u uid room content "text" (.ok msgId)).2 =
      [Event.newMessage room msgId content "text" u uid,
       Event.notification room (u ++ ": " ++ content.take 30 ++ "...")
         "message"] := by
  simp [handle_message]

/-- C6: an image event whose payload fails to decode persists zero
messages, performs zero room-wide broadcasts, and emits exactly one error
event, to the originating connection only. -/
theorem image_decode_failure_private_error (u : Username) (uid : Nat)
    (room : RoomId) (persist : PersistResult) :
    (handle_image u uid room .fail persist).1 = 0 ∧
    ((handle_image u uid room .fail persist).2.filter
        Event.isRoomBroadcast) = [] ∧
    (handle_image u uid room .fail persist).2 =
      [Event.errorToSender "Failed to process image"] :=
  ⟨rfl, rfl, rfl⟩

/-- C2 counterexample: in the empty registry connection 0 has no presence
entry for room "1" (it is not Joined there), yet `handle_message` persists
one message and performs two room broadcasts — not the zero messages and
zero broadcasts the claim states, and no error is raised. -/
theorem message_before_join_counterexample :
    dictGet ((dictGet ([] : ActiveUsers) "1").getD []) 0 = none ∧
    (handle_message "Alice" 0 "1" "hi" "text" (.ok 1)).1 = 1 ∧
    ((handle_message "Alice" 0 "1" "hi" "text" (.ok 1)).2.filter
        Event.isRoomBroadcast).length = 2 := by
  decide

/-- C2 amended: `handle_message` performs no join-state check at all — it
does not read the presence registry, and whenever the persistence commit
succeeds it persists exactly one message and emits exactly two events,
both room broadcasts, regardless of the sender's join state; no
NotJoinedError exists in the code. -/
theorem message_ignores_join_state (u : Username) (uid : Nat) (room : RoomId)
    (content ctype : String) (msgId : Nat) :
    (handle_message u uid room content ctype (.ok msgId)).1 = 1 ∧
    ((handle_message u uid room content ctype (.ok msgId)).2.filter
        Event.isRoomBroadcast) =
      (handle_message u uid room content ctype (.ok msgId)).2 ∧
    (handle_message u uid room content ctype (.ok msgId)).2.length = 2 := by
  by_cases h : ctype = "text" <;>
    simp [handle_message, h, Event.isRoomBroadcast]

/-- C8 counterexample: with no room existing upstream (empty room table),
a join for room "1" still creates the presence entry and performs the
normal join broadcasts; no UnknownRoomError is raised and nothing is
rejected. -/
theorem join_unknown_room_counterexample :
    roomExistsUpstream [] "1" = false ∧
    dictGet ((dictGet (handle_join [] 0 "Alice" "1").1 "1").getD []) 0 =
      some "Alice" ∧
    (handle_join [] 0 "Alice" "1").2 =
      [Event.notification "1" "Alice has joined the room" "join",
       Event.userListUpdate "1" ["Alice"] 1] := by
  decide

/-- C8 amended: `handle_join` never consults upstream room existence — for
every registry state and every room id it creates (or updates) the
presence entry and emits the join notification and presence update; no
UnknownRoomError exists in the code. -/
theorem join_never_checks_upstream (st : ActiveUsers) (sid : Sid)
    (name : Username) (room : RoomId) :
    dictGet ((dictGet (handle_join st sid name room).1 room).getD []) sid =
      some name ∧
    (handle_join st sid name room).2 =
      [Event.notification room (name ++ " has joined the room") "join",
       Event.userListUpdate room
         (values (dictSet ((dictGet st room).getD []) sid name))
         (values (dictSet ((dictGet st room).getD []) sid name)).length] := by
  refine ⟨?_, rfl⟩
  show dictGet ((dictGet
      (dictSet st room (dictSet ((dictGet st room).getD []) sid name))
      room).getD []) sid = some name
  rw [dictGet_dictSet_self, Option.getD_some, dictGet_dictSet_self]

/-- C9: every leave event — including one from a connection holding no
presence entry in the room — emits a "has left the room" notification and
a presence update to the room; when the entry is absent, the registry is
unchanged (a no-op, but not a silent one). -/
theorem leave_always_notifies (st : ActiveUsers) (sid : Sid)
    (username : Username) (room : RoomId) :
    (handle_leave st sid username room).2 =
      [Event.notification room (username ++ " has left the room") "leave",
       Event.userListUpdate room
         (roomUsers (handle_leave st sid username room).1 room)
         (roomUsers (handle_leave st sid username room).1 room).length] ∧
    (dictGet ((dictGet st room).getD []) sid = none →
      (handle_leave st sid username room).1 = st) := by
  constructor
  · rfl
  · intro h
    show leaveState st sid room = st
    unfold leaveState
    cases hm : dictGet st room with
    | none => rfl
    | some inner =>
        rw [hm, Option.getD_some] at h
        simp [h]

/-- C9 witness: in `stDemo`, connection 5 holds no entry in room "A"; its
leave leaves the registry untouched but still broadcasts the notification
and the (unchanged) user list. -/
theorem leave_always_notifies_witness :
    (handle_leave stDemo 5 "Eve" "A").2 =
      [Event.notification "A" "Eve has left the room" "leave",
       Event.userListUpdate "A" ["u", "v"] 2] ∧
    (handle_leave stDemo 5 "Eve" "A").1 = stDemo :=
  ⟨((leave_always_notifies stDemo 5 "Eve" "A").1).trans (by decide),
   (leave_always_notifies stDemo 5 "Eve" "A").2 (by decide)⟩

/-- C7: if the persistence commit fails, the message handler emits nothing
at all and the image handler emits no room broadcast (only the private
error), and neither persists a message; when the commit succeeds, the very
next emit is the `new_message` room broadcast — so the room broadcast
happens only after a successful persist. -/
theorem broadcast_only_after_persist (u : Username) (uid : Nat)
    (room : RoomId) (content ctype img : String) :
    (handle_message u uid room content ctype .fail).2 = [] ∧
    (handle_message u uid room content ctype .fail).1 = 0 ∧
    ((handle_image u uid room (.ok img) .fail).2.filter
        Event.isRoomBroadcast) = [] ∧
    (handle_image u uid room (.ok img) .fail).1 = 0 ∧
    (∀ msgId, (handle_message u uid room content ctype (.ok msgId)).2.head? =
      some (Event.newMessage room msgId content ctype u uid)) ∧
    (∀ msgId, (handle_image u uid room (.ok img) (.ok msgId)).2.head? =
      some (Event.newMessage room msgId img "image" u uid)) :=
  ⟨rfl, rfl, rfl, rfl, fun _ => rfl, fun _ => rfl⟩

/-- C4: a second join of a connection already present in the room with a
different display name replaces the stored name in place: the room's key
sequence (hence the entry's position) is unchanged, the room's size is
unchanged, the entry now holds the new name, and the new name appears in
the broadcast user list. -/
theorem rejoin_replaces_name (st : ActiveUsers) (sid : Sid) (room : RoomId)
    (oldName newName : Username)
    (h : dictGet ((dictGet st room).getD []) sid = some oldName) :
    keys ((dictGet (handle_join st sid newName room).1 room).getD []) =
      keys ((dictGet st room).getD []) ∧
    ((dictGet (handle_join st sid newName room).1 room).getD []).length =
      ((dictGet st room).getD []).length ∧
    dictGet ((dictGet (handle_join st sid newName room).1 room).getD []) sid =
      some newName ∧
    newName ∈ roomUsers (handle_join st sid newName room).1 room := by
  have hmem : sid ∈ keys ((dictGet st room).getD []) := by
    rw [← isSome_dictGet, h]
    rfl
  have hget : (dictGet (handle_join st sid newName room).1 room).getD [] =
      dictSet ((dictGet st room).getD []) sid newName := by
    show (dictGet (dictSet st room
        (dictSet ((dictGet st room).getD []) sid newName)) room).getD [] = _
    rw [dictGet_dictSet_self, Option.getD_some]
  refine ⟨?_, ?_, ?_, ?_⟩
  · rw [hget]
    exact keys_dictSet_of_mem _ sid newName hmem
  · rw [hget]
    have hk := congrArg List.length (keys_dictSet_of_mem _ sid newName hmem)
    rwa [length_keys, length_keys] at hk
  · rw [hget]
    exact dictGet_dictSet_self _ sid newName
  · unfold roomUsers
    rw [hget]
    exact mem_values_of_dictGet _ sid newName (dictGet_dictSet_self _ sid newName)

section PresenceCount

theorem leaveState_inner (st : ActiveUsers) (s : Sid) (room : RoomId) :
    (dictGet (leaveState st s room) room).getD [] =
      dictDel ((dictGet st room).getD []) s := by
  unfold leaveState
  cases hm : dictGet st room with
  | none =>
      rw [hm]
      rfl
  | some inner =>
      dsimp only [Option.getD_some]
      by_cases hs : (dictGet inner s).isSome
      · rw [if_pos hs, dictGet_dictSet_self]
        rfl
      · rw [if_neg hs, hm, Option.getD_some,
          dictDel_of_get_none inner s (Option.not_isSome_iff_eq_none.mp hs)]

theorem roomStep_inner (room : RoomId) (st : ActiveUsers) (op : RoomOp) :
    (dictGet (roomStep room st op) room).getD [] =
      innerStep ((dictGet st room).getD []) op := by
  cases op with
  | join s n =>
      show (dictGet (dictSet st room
          (dictSet ((dictGet st room).getD []) s n)) room).getD [] = _
      rw [dictGet_dictSet_self]
      rfl
  | leave s n => exact leaveState_inner st s room

theorem runOps_inner (room : RoomId) (ops : List RoomOp) :
    ∀ st : ActiveUsers, (dictGet (runOps room st ops) room).getD [] =
      ops.foldl innerStep ((dictGet st room).getD []) := by
  induction ops with
  | nil =>
      intro st
      rfl
  | cons op rest ih =>
      intro st
      simp only [List.foldl_cons]
      rw [← roomStep_inner room st op]
      exact ih (roomStep room st op)

theorem nodup_keys_innerStep (inner : Inner) (op : RoomOp)
    (h : (keys inner).Nodup) : (keys (innerStep inner op)).Nodup := by
  cases op with
  | join s n => exact nodup_keys_dictSet inner s n h
  | leave s n => exact nodup_keys_dictDel inner s h

theorem nodup_keys_foldl (ops : List RoomOp) :
    ∀ inner : Inner, (keys inner).Nodup →
      (keys (ops.foldl innerStep inner)).Nodup := by
  induction ops with
  | nil => exact fun inner h => h
  | cons op rest ih =>
      intro inner h
      simp only [List.foldl_cons]
      exact ih _ (nodup_keys_innerStep inner op h)

theorem nodup_keys_innerRun (ops : List RoomOp) :
    (keys (innerRun ops)).Nodup :=
  nodup_keys_foldl ops [] (by simp)

theorem innerRun_concat (ops : List RoomOp) (op : RoomOp) :
    innerRun (ops ++ [op]) = innerStep (innerRun ops) op :=
  List.foldl_concat innerStep [] op ops

theorem currentlyJoined_concat (ops : List RoomOp) (op : RoomOp) (a : Sid) :
    currentlyJoined (ops ++ [op]) a =
      if op.sidOf = a then op.isJoin else currentlyJoined ops a := by
  unfold currentlyJoined
  rw [List.filter_append]
  by_cases h : op.sidOf = a
  · have hb : (op.sidOf == a) = true := beq_iff_eq.mpr h
    have hf : List.filter (fun o => o.sidOf == a) [op] = [op] := by
      simp [List.filter, hb]
    rw [if_pos h, hf, List.getLast?_concat]
  · have hb : (op.sidOf == a) = false := beq_eq_false_iff_ne.mpr h
    have hf : List.filter (fun o => o.sidOf == a) [op] = [] := by
      simp [List.filter, hb]
    rw [if_neg h, hf, List.append_nil]

theorem mem_keys_innerRun (ops : List RoomOp) (a : Sid) :
    a ∈ keys (innerRun ops) ↔ currentlyJoined ops a = true := by
  induction ops using List.reverseRecOn with
  | nil => simp [innerRun, currentlyJoined]
  | append_singleton ops op ih =>
      rw [innerRun_concat, currentlyJoined_concat]
      cases op with
      | join s n =>
          show a ∈ keys (dictSet (innerRun ops) s n) ↔ _
          rw [mem_keys_dictSet]
          by_cases h : a = s
          · subst h
            simp [RoomOp.sidOf, RoomOp.isJoin]
          · simp [RoomOp.sidOf, RoomOp.isJoin, h, Ne.symm h, ih]
      | leave s n =>
          show a ∈ keys (dictDel (innerRun ops) s) ↔ _
          rw [mem_keys_dictDel _ _ _ (nodup_keys_innerRun ops)]
          by_cases h : a = s
          · subst h
            simp [RoomOp.sidOf, RoomOp.isJoin]
          · simp [RoomOp.sidOf, RoomOp.isJoin, h, Ne.symm h, ih]

theorem sid_mem_of_currentlyJoined (ops : List RoomOp) (a : Sid)
    (h : currentlyJoined ops a = true) : a ∈ ops.map RoomOp.sidOf := by
  unfold currentlyJoined at h
  cases hf : (ops.filter (fun o => o.sidOf == a)).getLast? with
  | none =>
      rw [hf] at h
      simp at h
  | some op =>
      have hmem : op ∈ ops.filter (fun o => o.sidOf == a) :=
        List.mem_of_mem_getLast? hf
      rw [List.mem_filter] at hmem
      have hs : op.sidOf = a := by simpa using hmem.2
      exact hs ▸ List.mem_map_of_mem RoomOp.sidOf hmem.1

theorem length_innerRun (ops : List RoomOp) :
    (innerRun ops).length = stillJoinedCount ops := by
  have h1 : (keys (innerRun ops)).Nodup := nodup_keys_innerRun ops
  have h2 : ((ops.map RoomOp.sidOf).dedup.filter
      (fun s => currentlyJoined ops s)).Nodup :=
    (ops.map RoomOp.sidOf).nodup_dedup.filter _
  have hset : (keys (innerRun ops)).toFinset =
      ((ops.map RoomOp.sidOf).dedup.filter
        (fun s => currentlyJoined ops s)).toFinset := by
    ext a
    rw [List.mem_toFinset, List.mem_toFinset, List.mem_filter,
      List.mem_dedup, mem_keys_innerRun]
    constructor
    · intro ha
      exact ⟨sid_mem_of_currentlyJoined ops a ha, ha⟩
    · intro ha
      exact ha.2
  have hcard := congrArg Finset.card hset
  rw [List.toFinset_card_of_nodup h1, List.toFinset_card_of_nodup h2] at hcard
  unfold stillJoinedCount
  rw [← hcard, length_keys]

/-- C1: after any nonempty sequence of join/leave events on one room
(starting from the empty registry), the user list broadcast by the final
event carries a count equal to the number of distinct connections that
have joined the room and not subsequently left it; the room's stored list
has that same length. -/
theorem presence_count_matches_still_joined (room : RoomId)
    (ops : List RoomOp) (op : RoomOp) :
    (roomUsers (runOps room [] ops) room).length = stillJoinedCount ops ∧
    broadcastCount (opRun room (runOps room [] ops) op).2 =
      some (stillJoinedCount (ops ++ [op])) := by
  have hlen : ∀ l : List RoomOp,
      (roomUsers (runOps room [] l) room).length = stillJoinedCount l := by
    intro l
    unfold roomUsers
    rw [length_values, runOps_inner room l []]
    exact length_innerRun l
  refine ⟨hlen ops, ?_⟩
  have hbc : broadcastCount (opRun room (runOps room [] ops) op).2 =
      some ((roomUsers (roomStep room (runOps room [] ops) op) room).length) := by
    cases op with
    | join s n =>
        unfold roomUsers
        rw [roomStep_inner]
        rfl
    | leave s n => rfl
  rw [hbc]
  have hstep : roomStep room (runOps room [] ops) op =
      runOps room [] (ops ++ [op]) :=
    (List.foldl_concat (roomStep room) [] op ops).symm
  rw [hstep, hlen (ops ++ [op])]

end PresenceCount

section Disconnect

theorem mem_of_dictGet {α β : Type} [DecidableEq α] (l : List (α × β))
    (k : α) (v : β) (h : dictGet l k = some v) : (k, v) ∈ l := by
  induction l with
  | nil => simp [dictGet] at h
  | cons p rest ih =>
      obtain ⟨k', v'⟩ := p
      by_cases hk : k' = k
      · subst hk
        rw [dictGet, if_pos rfl] at h
        injection h with h2
        subst h2
        exact List.mem_cons_self _ _
      · simp only [dictGet, if_neg hk] at h
        exact List.mem_cons_of_mem _ (ih h)

theorem eventsFor_cons_eq (r : RoomId) (e : Event) (evs : List Event)
    (h : e.roomOf = some r) : eventsFor r (e :: evs) = e :: eventsFor r evs := by
  simp [eventsFor, List.filter_cons, h]

theorem eventsFor_cons_ne (r : RoomId) (e : Event) (evs : List Event)
    (h : e.roomOf ≠ some r) : eventsFor r (e :: evs) = eventsFor r evs := by
  simp [eventsFor, List.filter_cons, h]

theorem eventsFor_cons_notif (r : RoomId) (m k : String) (evs : List Event) :
    eventsFor r (Event.notification r m k :: evs) =
      Event.notification r m k :: eventsFor r evs :=
  eventsFor_cons_eq r _ evs rfl

theorem eventsFor_cons_update (r : RoomId) (us : List Username) (c : Nat)
    (evs : List Event) :
    eventsFor r (Event.userListUpdate r us c :: evs) =
      Event.userListUpdate r us c :: eventsFor r evs :=
  eventsFor_cons_eq r _ evs rfl

theorem disconnect_cons_present (r : RoomId) (inner : Inner)
    (rest : ActiveUsers) (sid : Sid) (name : Username)
    (h : dictGet inner sid = some name) :
    handle_disconnect ((r, inner) :: rest) sid =
      ((r, dictDel inner sid) :: (handle_disconnect rest sid).1,
       Event.notification r (name ++ " has disconnected") "leave" ::
       Event.userListUpdate r (values (dictDel inner sid))
         (values (dictDel inner sid)).length ::
       (handle_disconnect rest sid).2) := by
  simp only [handle_disconnect]
  rw [h]

theorem disconnect_cons_absent (r : RoomId) (inner : Inner)
    (rest : ActiveUsers) (sid : Sid) (h : dictGet inner sid = none) :
    handle_disconnect ((r, inner) :: rest) sid =
      ((r, inner) :: (handle_disconnect rest sid).1,
       (handle_disconnect rest sid).2) := by
  simp only [handle_disconnect]
  rw [h]

theorem disconnect_removes (sid : Sid) :
    ∀ st : ActiveUsers, (∀ p ∈ st, (keys p.2).Nodup) →
      ∀ r : RoomId,
        dictGet ((dictGet (handle_disconnect st sid).1 r).getD []) sid = none := by
  intro st
  induction st with
  | nil =>
      intro _ r
      rfl
  | cons p rest ih =>
      obtain ⟨r0, i0⟩ := p
      intro hin r
      have hin0 : (keys i0).Nodup := hin (r0, i0) (List.mem_cons_self _ _)
      have hinr : ∀ q ∈ rest, (keys q.2).Nodup :=
        fun q hq => hin q (List.mem_cons_of_mem _ hq)
      cases hg : dictGet i0 sid with
      | some u =>
          rw [disconnect_cons_present r0 i0 rest sid u hg]
          by_cases hr : r0 = r
          · subst hr
            simp only [dictGet, if_pos rfl, Option.getD_some]
            exact dictGet_dictDel_self i0 sid hin0
          · simp only [dictGet, if_neg hr]
            exact ih hinr r
      | none =>
          rw [disconnect_cons_absent r0 i0 rest sid hg]
          by_cases hr : r0 = r
          · subst hr
            simp only [dictGet, if_pos rfl, Option.getD_some]
            exact hg
          · simp only [dictGet, if_neg hr]
            exact ih hinr r

theorem eventsFor_disconnect_not_mem (sid : Sid) (r : RoomId) :
    ∀ st : ActiveUsers, r ∉ keys st →
      eventsFor r (handle_disconnect st sid).2 = [] := by
  intro st
  induction st with
  | nil =>
      intro _
      rfl
  | cons p rest ih =>
      obtain ⟨r0, i0⟩ := p
      intro h
      have hne : r0 ≠ r := by
        intro e
        exact h (by rw [keys_cons]; exact List.mem_cons.mpr (Or.inl e.symm))
      have hrest : r ∉ keys rest := by
        intro e
        exact h (by rw [keys_cons]; exact List.mem_cons.mpr (Or.inr e))
      cases hg : dictGet i0 sid with
      | some u =>
          rw [disconnect_cons_present r0 i0 rest sid u hg]
          rw [eventsFor_cons_ne _ _ _ (by simp [Event.roomOf, hne]),
            eventsFor_cons_ne _ _ _ (by simp [Event.roomOf, hne])]
          exact ih hrest
      | none =>
          rw [disconnect_cons_absent r0 i0 rest sid hg]
          exact ih hrest

theorem eventsFor_disconnect_present (sid : Sid) :
    ∀ st : ActiveUsers, (keys st).Nodup →
      ∀ r inner name, (r, inner) ∈ st → dictGet inner sid = some name →
        eventsFor r (handle_disconnect st sid).2 =
          [Event.notification r (name ++ " has disconnected") "leave",
           Event.userListUpdate r (values (dictDel inner sid))
             (values (dictDel inner sid)).length] := by
  intro st
  induction st with
  | nil =>
      intro _ r inner name hmem _
      simp at hmem
  | cons p rest ih =>
      obtain ⟨r0, i0⟩ := p
      intro hnd r inner name hmem hget
      have hnd2 := List.nodup_cons.mp (by simpa using hnd)
      rcases List.mem_cons.mp hmem with heq | hmem2
      · have h1 : r = r0 := congrArg Prod.fst heq
        have h2 : inner = i0 := congrArg Prod.snd heq
        subst h1
        subst h2
        rw [disconnect_cons_present r inner rest sid name hget]
        rw [eventsFor_cons_notif, eventsFor_cons_update,
          eventsFor_disconnect_not_mem sid r rest hnd2.1]
      · have hrk : r ∈ keys rest := List.mem_map_of_mem Prod.fst hmem2
        have hne : r0 ≠ r := by
          intro e
          exact hnd2.1 (e ▸ hrk)
        cases hg : dictGet i0 sid with
        | some u =>
            rw [disconnect_cons_present r0 i0 rest sid u hg]
            rw [eventsFor_cons_ne _ _ _ (by simp [Event.roomOf, hne]),
              eventsFor_cons_ne _ _ _ (by simp [Event.roomOf, hne])]
            exact ih hnd2.2 r inner name hmem2 hget
        | none =>
            rw [disconnect_cons_absent r0 i0 rest sid hg]
            exact ih hnd2.2 r inner name hmem2 hget

theorem eventsFor_disconnect_absent (sid : Sid) :
    ∀ st : ActiveUsers, (keys st).Nodup →
      ∀ r inner, (r, inner) ∈ st → dictGet inner sid = none →
        eventsFor r (handle_disconnect st sid).2 = [] := by
  intro st
  induction st with
  | nil =>
      intro _ r inner hmem _
      simp at hmem
  | cons p rest ih =>
      obtain ⟨r0, i0⟩ := p
      intro hnd r inner hmem hget
      have hnd2 := List.nodup_cons.mp (by simpa using hnd)
      rcases List.mem_cons.mp hmem with heq | hmem2
      · have h1 : r = r0 := congrArg Prod.fst heq
        have h2 : inner = i0 := congrArg Prod.snd heq
        subst h1
        subst h2
        rw [disconnect_cons_absent r inner rest sid hget]
        exact eventsFor_disconnect_not_mem sid r rest hnd2.1
      · have hrk : r ∈ keys rest := List.mem_map_of_mem Prod.fst hmem2
        have hne : r0 ≠ r := by
          intro e
          exact hnd2.1 (e ▸ hrk)
        cases hg : dictGet i0 sid with
        | some u =>
            rw [disconnect_cons_present r0 i0 rest sid u hg]
            rw [eventsFor_cons_ne _ _ _ (by simp [Event.roomOf, hne]),
              eventsFor_cons_ne _ _ _ (by simp [Event.roomOf, hne])]
            exact ih hnd2.2 r inner hmem2 hget
        | none =>
            rw [disconnect_cons_absent r0 i0 rest sid hg]
            exact ih hnd2.2 r inner hmem2 hget

theorem disconnect_noop (sid : Sid) :
    ∀ st : ActiveUsers, (∀ p ∈ st, dictGet p.2 sid = none) →
      handle_disconnect st sid = (st, []) := by
  intro st
  induction st with
  | nil =>
      intro _
      rfl
  | cons p rest ih =>
      obtain ⟨r0, i0⟩ := p
      intro h
      rw [disconnect_cons_absent r0 i0 rest sid
        (h (r0, i0) (List.mem_cons_self _ _))]
      rw [ih (fun q hq => h q (List.mem_cons_of_mem _ hq))]

/-- C3: a disconnect removes the connection's presence entry from every
room; every room where it was present receives exactly one "has
disconnected" notification (with the stored display name) followed by
exactly one presence update with the post-removal list; rooms where it was
not present receive no event; and if the connection is present in no room,
the registry and emit list are untouched. -/
theorem disconnect_cleans_all_rooms (st : ActiveUsers) (sid : Sid)
    (hout : (keys st).Nodup) (hin : ∀ p ∈ st, (keys p.2).Nodup) :
    (∀ r : RoomId,
      dictGet ((dictGet (handle_disconnect st sid).1 r).getD []) sid = none) ∧
    (∀ p ∈ st, ∀ name, dictGet p.2 sid = some name →
      eventsFor p.1 (handle_disconnect st sid).2 =
        [Event.notification p.1 (name ++ " has disconnected") "leave",
         Event.userListUpdate p.1 (values (dictDel p.2 sid))
           (values (dictDel p.2 sid)).length]) ∧
    (∀ p ∈ st, dictGet p.2 sid = none →
      eventsFor p.1 (handle_disconnect st sid).2 = []) ∧
    ((∀ p ∈ st, dictGet p.2 sid = none) →
      (handle_disconnect st sid).1 = st ∧ (handle_disconnect st sid).2 = []) := by
  refine ⟨disconnect_removes sid st hin, ?_, ?_, ?_⟩
  · intro p hp name hget
    exact eventsFor_disconnect_present sid st hout p.1 p.2 name
      (by simpa using hp) hget
  · intro p hp hget
    exact eventsFor_disconnect_absent sid st hout p.1 p.2
      (by simpa using hp) hget
  · intro h
    have hne := disconnect_noop sid st h
    exact ⟨congrArg Prod.fst hne, congrArg Prod.snd hne⟩

/-- C3 witness: disconnecting connection 0 in `stDemo` (present in rooms
"A" and "B", absent from "C") sends room "A" exactly its notification and
updated list, sends room "C" nothing, and removes the entry from "A". -/
theorem disconnect_cleans_all_rooms_witness :
    eventsFor "A" (handle_disconnect stDemo 0).2 =
      [Event.notification "A" "u has disconnected" "leave",
       Event.userListUpdate "A" ["v"] 1] ∧
    eventsFor "C" (handle_disconnect stDemo 0).2 = [] ∧
    dictGet ((dictGet (handle_disconnect stDemo 0).1 "A").getD []) 0 = none :=
  ⟨((disconnect_cleans_all_rooms stDemo 0 (by decide) (by decide)).2.1
      ("A", [(0, "u"), (1, "v")]) (by decide) "u" (by decide)).trans (by decide),
   (disconnect_cleans_all_rooms stDemo 0 (by decide) (by decide)).2.2.1
      ("C", [(2, "w")]) (by decide) (by decide),
   (disconnect_cleans_all_rooms stDemo 0 (by decide) (by decide)).1 "A"⟩

end Disconnect

/-- C4 witness: rejoining room "1" as connection 0 with the new name
"Alicia" replaces "Alice" in place. -/
theorem rejoin_replaces_name_witness :
    dictGet ((dictGet stRejoin "1").getD []) 0 = some "Alice" ∧
    dictGet ((dictGet (handle_join stRejoin 0 "Alicia" "1").1 "1").getD []) 0 =
      some "Alicia" ∧
    "Alicia" ∈ roomUsers (handle_join stRejoin 0 "Alicia" "1").1 "1" :=
  ⟨by decide,
   (rejoin_replaces_name stRejoin 0 "1" "Alice" "Alicia" (by decide)).2.2.1,
   (rejoin_replaces_name stRejoin 0 "1" "Alice" "Alicia" (by decide)).2.2.2⟩

end ChatApp
